import Mathlib

/-
Verification of the offline disk-rendering pipeline of the Hydrogen
sequencer, shallowly embedded from src/src/core/IO/DiskWriterDriver.cpp
(function diskWriterDriver_thread).  Floating-point quantities of the
source are modelled exactly over the rationals; machine integers are
modelled as Nat and Int; the external libsndfile calls and the audio
generation callback are abstracted as parameters of the model.
-/

namespace DiskWriter

/-- Truncation of a rational toward zero, the semantics of the C cast
from a floating-point value to an integer type. -/
def ratTrunc (q : ℚ) : ℤ := if q < 0 then -⌊-q⌋ else ⌊q⌋

/-- Modelled from the spec: the constant MAX_NOTES used by the source at
line 169 of DiskWriterDriver.cpp as the default full length in ticks of
an empty pattern group.  The defining header is not part of the sources
under study; the concrete value is irrelevant to every claim. -/
def MAX_NOTES : ℕ := 192

/-- Modelled from the spec: AudioEngine.computeTickSize, the tempo
timing resolver.  Contract: ticksize = sampleRate * 60 / (bpm *
resolution), frames per tick as a floating-point value. -/
def computeTickSize (nSampleRate : ℕ) (fBpm : ℚ) (nResolution : ℤ) : ℚ :=
  (nSampleRate : ℚ) * 60 / (fBpm * (nResolution : ℚ))

/-- One pattern group (a column of the pattern group vector of the
song): the lengths in ticks of the patterns triggered at this timeline
position, possibly none. -/
structure PatternGroup where
  patternLengths : List ℕ

/-- Modelled from the spec: PatternList.longest_pattern_length, the
longest pattern length of the column. -/
def longest_pattern_length (g : PatternGroup) : ℕ :=
  g.patternLengths.foldl max 0

/-- Lines 166 to 170 of the source: the pattern size of a column is the
longest pattern length when the column is nonempty and MAX_NOTES
otherwise. -/
def nPatternSize (g : PatternGroup) : ℕ :=
  if g.patternLengths.length ≠ 0 then longest_pattern_length g else MAX_NOTES

/-- The song data read by the renderer: the pattern group vector, the
resolution in ticks per beat, and (modelled from the spec) the tempo map
AudioEngine.getBpmAtColumn giving the bpm at each column. -/
structure Song where
  patternGroups : List PatternGroup
  resolution : ℤ
  bpmAt : ℕ → ℚ

/-- The DiskWriterDriver fields read by the thread (construction at
lines 244 to 252 and init at line 261 of the source). -/
structure Driver where
  m_nSampleRate : ℕ
  m_nSampleDepth : ℤ
  m_nBufferSize : ℕ
  m_sFilename : List Char

/-- QString.endsWith with case-sensitive matching, the Qt call used by
the source; the filename is modelled as its list of characters. -/
def qEndsWith (s suffix : List Char) : Bool := List.isSuffixOf suffix s

/-- Lines 162 to 177 of the source: the frame count of one column.  The
tick size is recomputed for the column from its own bpm, multiplied by
the pattern size and truncated by the C cast to unsigned.  The cast is
undefined behavior in C++ when the product is negative or out of range;
the model clamps that region to zero, and every theorem below confines
itself through its hypotheses to products that are nonnegative (zero
included), where the cast is defined and the model exact. -/
def groupFrames (nSampleRate : ℕ) (nResolution : ℤ) (fBpm : ℚ)
    (g : PatternGroup) : ℕ :=
  (ratTrunc (computeTickSize nSampleRate fBpm nResolution * (nPatternSize g : ℚ))).toNat

/-- Lines 180 to 191 of the source, the chunking loop of one column:
while frameNumber < patternLengthInFrames the used buffer is the full
buffer size, shortened to the remainder when less than a full buffer is
left, and frameNumber advances by the used buffer.  The fuel argument
makes the loop total; fuel exhaustion (possible only when the buffer
size is zero) models divergence by returning none. -/
def chunkLoop (bufSize total : ℕ) : ℕ → ℕ → Option (List ℕ)
  | 0, frameNumber => if frameNumber < total then none else some []
  | fuel + 1, frameNumber =>
    if frameNumber < total then
      let usedBuffer := if total - frameNumber < bufSize then total - frameNumber else bufSize
      (chunkLoop bufSize total fuel (frameNumber + usedBuffer)).map (usedBuffer :: ·)
    else some []

/-- The sequence of chunk sizes the loop of lines 180 to 191 pulls for a
column of the given total frame count.  A total of frames is enough fuel
because every iteration with a positive buffer size advances by at least
one frame. -/
def chunks (bufSize total : ℕ) : Option (List ℕ) := chunkLoop bufSize total total 0

/-- Lines 200 to 220 of the source: clamping of one sample, strictly
above one becomes one, strictly below minus one becomes minus one, and
every other value passes through unchanged. -/
def clampSample (x : ℚ) : ℚ := if x > 1 then 1 else if x < -1 then -1 else x

/-- Lines 200 to 220 of the source: the conditioning loop writes the
clamped left sample at even positions and the clamped right sample at
odd positions of the interleaved output buffer. -/
def conditionChunk : List ℚ → List ℚ → List ℚ
  | l :: ls, r :: rs => clampSample l :: clampSample r :: conditionChunk ls rs
  | _, _ => []

/-- Lines 72 to 104 of the source: the libsndfile format word.  The
default is the WAV major format with signed 16 bit PCM; the aiff and
flac suffixes (exactly lowercase or exactly uppercase) override the
major format; a sample depth of 8 selects signed 8 bit PCM only with an
aiff suffix and unsigned 8 bit PCM only with a wav suffix; depths 16, 24
and 32 select the matching signed PCM subformat; an ogg suffix replaces
the whole word by the OGG major format with the Vorbis subformat.  The
numeric values are the libsndfile SF_FORMAT constants quoted in the
source comments. -/
def selectFormat (filename : List Char) (depth : ℤ) : ℕ :=
  let sfformat : ℕ := 0x010000
  let sfformat : ℕ :=
    if qEndsWith filename ".aiff".data || qEndsWith filename ".AIFF".data then
      0x020000 else sfformat
  let sfformat : ℕ :=
    if qEndsWith filename ".flac".data || qEndsWith filename ".FLAC".data then
      0x170000 else sfformat
  let bits : ℕ := 0x0002
  let bits : ℕ :=
    if depth = 8 ∧ (qEndsWith filename ".aiff".data || qEndsWith filename ".AIFF".data) = true then
      0x0001 else bits
  let bits : ℕ :=
    if depth = 8 ∧ (qEndsWith filename ".wav".data || qEndsWith filename ".WAV".data) = true then
      0x0005 else bits
  let bits : ℕ := if depth = 16 then 0x0002 else bits
  let bits : ℕ := if depth = 24 then 0x0003 else bits
  let bits : ℕ := if depth = 32 then 0x0004 else bits
  if qEndsWith filename ".ogg".data || qEndsWith filename ".OGG".data then
    0x200000 ||| 0x0060
  else sfformat ||| bits

/-- Container formats reachable by the format selection of the source. -/
inductive Container
  | wav
  | aiff
  | flac
  | ogg
deriving DecidableEq

/-- Sample encodings reachable by the format selection of the source. -/
inductive SampleEncoding
  | pcmS8
  | pcm16
  | pcm24
  | pcm32
  | pcmU8
  | vorbis
deriving DecidableEq

/-- The libsndfile major format constant of a container. -/
def containerCode : Container → ℕ
  | .wav => 0x010000
  | .aiff => 0x020000
  | .flac => 0x170000
  | .ogg => 0x200000

/-- The libsndfile subformat constant of a sample encoding. -/
def encodingCode : SampleEncoding → ℕ
  | .pcmS8 => 0x0001
  | .pcm16 => 0x0002
  | .pcm24 => 0x0003
  | .pcm32 => 0x0004
  | .pcmU8 => 0x0005
  | .vorbis => 0x0060

/-- The format word a container and encoding pair denotes, combined the
way line 97 of the source combines the major format and the bits. -/
def encodePair (p : Container × SampleEncoding) : ℕ :=
  containerCode p.1 ||| encodingCode p.2

/-- Lowercasing of one ASCII character, used to state the
case-insensitive matching the claim text demands. -/
def lowerChar (c : Char) : Char :=
  if 65 ≤ c.toNat ∧ c.toNat ≤ 90 then Char.ofNat (c.toNat + 32) else c

/-- Case-insensitive suffix matching, used to state the claim text. -/
def endsWithCI (s suffix : List Char) : Bool :=
  qEndsWith (s.map lowerChar) (suffix.map lowerChar)

/-- The format selection the claim text of C3 describes: container by
case-insensitive extension, encoding by depth, with unsigned 8 bit PCM
for depth 8 except signed 8 bit PCM when the container is AIFF, and the
depth ignored entirely for ogg. -/
def claimedFormatSelector (filename : List Char) (depth : ℤ) : Container × SampleEncoding :=
  let container : Container :=
    if endsWithCI filename ".ogg".data then .ogg
    else if endsWithCI filename ".flac".data then .flac
    else if endsWithCI filename ".aiff".data then .aiff
    else .wav
  let encoding : SampleEncoding :=
    if container = .ogg then .vorbis
    else if depth = 8 then (if container = .aiff then .pcmS8 else .pcmU8)
    else if depth = 16 then .pcm16
    else if depth = 24 then .pcm24
    else if depth = 32 then .pcm32
    else .pcm16
  (container, encoding)

/-- The format selection the source actually performs, written as a
container and encoding pair: suffix matching recognizes only the exactly
lowercase and the exactly uppercase spelling, and a depth of 8 keeps the
default signed 16 bit PCM unless the suffix is a wav suffix (unsigned
8 bit) or an aiff suffix (signed 8 bit). -/
def amendedFormatSelector (filename : List Char) (depth : ℤ) : Container × SampleEncoding :=
  let aiffish := qEndsWith filename ".aiff".data || qEndsWith filename ".AIFF".data
  let flacish := qEndsWith filename ".flac".data || qEndsWith filename ".FLAC".data
  let wavish := qEndsWith filename ".wav".data || qEndsWith filename ".WAV".data
  let oggish := qEndsWith filename ".ogg".data || qEndsWith filename ".OGG".data
  let container : Container :=
    if oggish then .ogg
    else if flacish then .flac
    else if aiffish then .aiff
    else .wav
  let encoding : SampleEncoding :=
    if oggish then .vorbis
    else if depth = 16 then .pcm16
    else if depth = 24 then .pcm24
    else if depth = 32 then .pcm32
    else if depth = 8 ∧ wavish = true then .pcmU8
    else if depth = 8 ∧ aiffish = true then .pcmS8
    else .pcm16
  (container, encoding)

/-- Observable events of one run of diskWriterDriver_thread, in program
order: the initial progress push (line 59), the transport start (line
66), the error log of a failed format check (line 140), the sf_open call
(line 145), one pull of the process callback per chunk (lines 195 to
198), one sf_writef_float call per chunk (line 221), the error log of a
short write (line 223), the per-column progress push (line 229), and the
sf_close call (line 234). -/
inductive REvent
  | progress (pct : ℤ)
  | play
  | formatErrorLog
  | openSink (ok : Bool)
  | pull (size : ℕ)
  | writeCall (size : ℕ)
  | shortWriteLog
  | closeSink
deriving DecidableEq

/-- Events of the writes of one column: for each chunk, in order, the
callback pull, the sf_writef_float call, and the error log exactly when
the external write result differs from the requested frame count (lines
195 to 224 of the source).  The first argument numbers the writes of the
whole run so that each write can have its own external result. -/
def chunkWriteEvents (writeResult : ℕ → ℕ → ℤ) : ℕ → List ℕ → List REvent
  | _, [] => []
  | writeCount, c :: rest =>
    REvent.pull c :: REvent.writeCall c ::
      ((if writeResult writeCount c = (c : ℤ) then [] else [REvent.shortWriteLog]) ++
        chunkWriteEvents writeResult (writeCount + 1) rest)

/-- Lines 162 to 230 of the source: the per-column loop.  For each
column position, the frame count is computed from the bpm at that
position, the chunk loop runs, and one progress event with the truncated
percentage of completed columns is pushed.  Returns none when some chunk
loop diverges. -/
def renderColumns (drv : Driver) (song : Song) (writeResult : ℕ → ℕ → ℤ)
    (nColumns : ℕ) : List ℕ → ℕ → Option (List REvent)
  | [], _ => some []
  | patternPosition :: rest, writeCount =>
    let g := song.patternGroups.getD patternPosition ⟨[]⟩
    let frames := groupFrames drv.m_nSampleRate song.resolution
      (song.bpmAt patternPosition) g
    match chunks drv.m_nBufferSize frames with
    | none => none
    | some sizes =>
      match renderColumns drv song writeResult nColumns rest (writeCount + sizes.length) with
      | none => none
      | some restEvents =>
        some (chunkWriteEvents writeResult writeCount sizes ++
          [REvent.progress (ratTrunc (((patternPosition : ℚ) + 1) / (nColumns : ℚ) * 100))] ++
          restEvents)

/-- The whole of diskWriterDriver_thread (lines 54 to 240 of the
source): push progress zero, start the transport, compute the format
word, stop with an error log when the external format check rejects it,
otherwise open the sink (the result of sf_open is recorded but never
examined by the source), run every column in order, and close the sink.
The external world is abstracted by the format check predicate, the
sf_open outcome and the per-write results of sf_writef_float. -/
def diskWriterDriver_thread (drv : Driver) (song : Song)
    (sf_format_check : ℕ → Bool) (sf_open_ok : Bool)
    (writeResult : ℕ → ℕ → ℤ) : Option (List REvent) :=
  let pre := [REvent.progress 0, REvent.play]
  if sf_format_check (selectFormat drv.m_sFilename drv.m_nSampleDepth) = false then
    some (pre ++ [REvent.formatErrorLog])
  else
    let nColumns := song.patternGroups.length
    match renderColumns drv song writeResult nColumns (List.range nColumns) 0 with
    | none => none
    | some evs =>
      some (pre ++ [REvent.openSink sf_open_ok] ++ evs ++ [REvent.closeSink])

/-- The percentages of the progress events of a trace, in order. -/
def progressValues (t : List REvent) : List ℤ :=
  t.filterMap fun e => match e with | REvent.progress p => some p | _ => none

/-- True exactly on the short-write error log event. -/
def isShortWriteLog : REvent → Bool
  | REvent.shortWriteLog => true
  | _ => false

/-- A trace with the short-write error logs erased: everything the rest
of the loop can observe. -/
def stateEvents (t : List REvent) : List REvent :=
  t.filter fun e => !(isShortWriteLog e)

/-- The chunk size list the spec predicts: full buffers followed by the
nonzero remainder. -/
def chunkListSpec (bufSize total : ℕ) : List ℕ :=
  List.replicate (total / bufSize) bufSize ++
    (if total % bufSize = 0 then [] else [total % bufSize])

/-- The percentage sequence a full render run pushes for N columns: the
initial zero of line 59 followed by the truncated percentage of each
completed column of line 229. -/
def progressSpec (N : ℕ) : List ℤ :=
  0 :: (List.range N).map (fun pos : ℕ => ratTrunc (((pos : ℚ) + 1) / (N : ℚ) * 100))

/-- A concrete driver for the concrete scenarios: sample rate 8, depth
16, buffer size 4 frames, wav output name. -/
def drvA : Driver := ⟨8, 16, 4, "out.wav".data⟩

/-- A concrete song for the concrete scenarios: nGroups groups of one
pattern of 3 ticks each, resolution 4 ticks per beat, constant bpm, so
each group is 8 * 60 / (bpm * 4) * 3 frames. -/
def songA (fBpm : ℚ) (nGroups : ℕ) : Song :=
  ⟨List.replicate nGroups ⟨[3]⟩, 4, fun _ => fBpm⟩

/-- The concrete driver with sample rate zero, the one non-positive
value of the unsigned sample rate: the tick size is then exactly zero
and every cast in the source stays well defined. -/
def drvA0 : Driver := ⟨0, 16, 4, "out.wav".data⟩

theorem chunkListSpec_zero (B : ℕ) : chunkListSpec B 0 = [] := by
  simp [chunkListSpec]

theorem chunkListSpec_small {B r : ℕ} (h0 : 0 < r) (h : r < B) :
    chunkListSpec B r = [r] := by
  rw [chunkListSpec, Nat.div_eq_of_lt h, Nat.mod_eq_of_lt h]
  simp [h0.ne']

theorem chunkListSpec_step {B r : ℕ} (hB : 0 < B) (h : B ≤ r) :
    chunkListSpec B r = B :: chunkListSpec B (r - B) := by
  obtain ⟨m, rfl⟩ := Nat.exists_eq_add_of_le h
  rw [chunkListSpec, chunkListSpec, Nat.add_sub_cancel_left, Nat.add_comm B m,
    Nat.add_div_right _ hB, Nat.add_mod_right, List.replicate_succ, List.cons_append]

theorem chunkLoop_eq {B : ℕ} (total : ℕ) (hB : 0 < B) :
    ∀ fuel n, total - n ≤ fuel →
      chunkLoop B total fuel n = some (chunkListSpec B (total - n)) := by
  intro fuel
  induction fuel with
  | zero =>
    intro n hn
    have htot : total - n = 0 := Nat.le_zero.mp hn
    rw [chunkLoop, if_neg (by omega), htot, chunkListSpec_zero]
  | succ f ih =>
    intro n hn
    by_cases hlt : n < total
    · rw [chunkLoop, if_pos hlt]
      by_cases hsmall : total - n < B
      · rw [if_pos hsmall]
        have h1 : total - (n + (total - n)) = 0 := by omega
        simp only [ih (n + (total - n)) (by omega), h1, chunkListSpec_zero]
        rw [chunkListSpec_small (by omega) hsmall]
        rfl
      · rw [if_neg hsmall]
        have h2 : total - (n + B) = (total - n) - B := by omega
        simp only [ih (n + B) (by omega), h2]
        show some (B :: chunkListSpec B (total - n - B)) = some (chunkListSpec B (total - n))
        rw [← chunkListSpec_step hB (show B ≤ total - n by omega)]
    · rw [chunkLoop, if_neg hlt]
      have htot : total - n = 0 := by omega
      rw [htot, chunkListSpec_zero]

theorem chunks_eq {B : ℕ} (total : ℕ) (hB : 0 < B) :
    chunks B total = some (chunkListSpec B total) := by
  have h := chunkLoop_eq total hB total 0 (by omega)
  rwa [Nat.sub_zero] at h

theorem chunks_total_zero (B : ℕ) : chunks B 0 = some [] := by
  cases B <;> rfl

theorem chunkListSpec_sum (B total : ℕ) :
    (chunkListSpec B total).sum = total := by
  rw [chunkListSpec]
  by_cases h : total % B = 0
  · rw [if_pos h, List.append_nil, List.sum_replicate, smul_eq_mul]
    exact Nat.div_mul_cancel (Nat.dvd_of_mod_eq_zero h)
  · rw [if_neg h, List.sum_append, List.sum_replicate, smul_eq_mul]
    simp only [List.sum_cons, List.sum_nil, Nat.add_zero]
    exact Nat.div_add_mod' total B

theorem chunkListSpec_dropLast {B : ℕ} (total : ℕ) :
    ∀ c ∈ (chunkListSpec B total).dropLast, c = B := by
  intro c hc
  rw [chunkListSpec] at hc
  by_cases h : total % B = 0
  · rw [if_pos h, List.append_nil] at hc
    exact List.eq_of_mem_replicate (List.dropLast_subset _ hc)
  · rw [if_neg h, List.dropLast_concat] at hc
    exact List.eq_of_mem_replicate hc

theorem chunkListSpec_getLast {B : ℕ} (total : ℕ) (hB : 0 < B) :
    (chunkListSpec B total).getLast? =
      if total = 0 then none
      else some (if total % B = 0 then B else total % B) := by
  rw [chunkListSpec]
  by_cases h0 : total = 0
  · simp [h0]
  · rw [if_neg h0]
    by_cases h : total % B = 0
    · rw [if_pos h, if_pos h, List.append_nil]
      have hdvd : B ∣ total := Nat.dvd_of_mod_eq_zero h
      have hpos : 0 < total / B := Nat.div_pos (Nat.le_of_dvd (Nat.pos_of_ne_zero h0) hdvd) hB
      obtain ⟨k, hk⟩ := Nat.exists_eq_add_of_lt hpos
      rw [hk, Nat.zero_add, List.replicate_succ', List.getLast?_concat]
    · rw [if_neg h, if_neg h, List.getLast?_concat]

theorem chunkListSpec_pos {B : ℕ} (total : ℕ) (hB : 0 < B) :
    ∀ c ∈ chunkListSpec B total, 0 < c := by
  intro c hc
  rw [chunkListSpec] at hc
  rcases List.mem_append.mp hc with h | h
  · exact List.eq_of_mem_replicate h ▸ hB
  · by_cases hm : total % B = 0
    · simp [hm] at h
    · rw [if_neg hm, List.mem_singleton] at h
      exact h ▸ Nat.pos_of_ne_zero hm

theorem scanl_head {α : Type} (f : α → α → α) (b : α) (l : List α) :
    (List.scanl f b l).head? = some b := by
  cases l <;> simp [List.scanl_nil, List.scanl_cons]

theorem chain_lt_scanl :
    ∀ (l : List ℕ) (a : ℕ), (∀ c ∈ l, 0 < c) →
      List.Chain' (· < ·) (l.scanl (· + ·) a) := by
  intro l
  induction l with
  | nil => intro a _; simp [List.scanl_nil]
  | cons c t ih =>
    intro a h
    rw [List.scanl_cons]
    refine List.chain'_cons'.mpr ⟨?_, ?_⟩
    · intro y hy
      have hy' : (List.scanl (· + ·) (a + c) t).head? = some y := hy
      rw [scanl_head] at hy'
      injection hy' with hy''
      have hc : 0 < c := h c (List.mem_cons_self _ _)
      omega
    · exact ih (a + c) fun x hx => h x (List.mem_cons_of_mem _ hx)

/-- C2: within every group of total frames, with buffer size B > 0, the
chunk loop produces exactly the full buffers followed by the nonzero
remainder: every chunk except possibly the last is B, the last is
total mod B unless that remainder is zero (then it is B), the sizes sum
to total, and the chunk offsets (partial sums) are strictly
increasing. -/
theorem C2_chunk_partition (B total : ℕ) (hB : 0 < B) :
    ∃ l, chunks B total = some l ∧
      l = chunkListSpec B total ∧
      l.sum = total ∧
      (∀ c ∈ l.dropLast, c = B) ∧
      l.getLast? = (if total = 0 then none
        else some (if total % B = 0 then B else total % B)) ∧
      (∀ c ∈ l, 0 < c) ∧
      List.Chain' (· < ·) (l.scanl (· + ·) 0) := by
  refine ⟨chunkListSpec B total, chunks_eq total hB, rfl, chunkListSpec_sum B total,
    chunkListSpec_dropLast total, chunkListSpec_getLast total hB,
    chunkListSpec_pos total hB, chain_lt_scanl _ 0 (chunkListSpec_pos total hB)⟩

/-- Witness for C2 at the buffer size 16384 and the group total 48000 of
the spec scenario A. -/
theorem C2_chunk_partition_witness :
    0 < 16384 ∧
    ∃ l, chunks 16384 48000 = some l ∧
      l = chunkListSpec 16384 48000 ∧
      l.sum = 48000 ∧
      (∀ c ∈ l.dropLast, c = 16384) ∧
      l.getLast? = (if 48000 = 0 then none
        else some (if 48000 % 16384 = 0 then 16384 else 48000 % 16384)) ∧
      (∀ c ∈ l, 0 < c) ∧
      List.Chain' (· < ·) (l.scanl (· + ·) 0) :=
  ⟨by norm_num, C2_chunk_partition 16384 48000 (by norm_num)⟩

theorem ratTrunc_eq_floor {q : ℚ} (h : 0 ≤ q) : ratTrunc q = ⌊q⌋ := by
  rw [ratTrunc, if_neg (not_lt.mpr h)]

theorem ratTrunc_nonpos {q : ℚ} (h : q ≤ 0) : ratTrunc q ≤ 0 := by
  rw [ratTrunc]
  by_cases hq : q < 0
  · rw [if_pos hq]
    have h0 : (0:ℤ) ≤ ⌊-q⌋ := Int.floor_nonneg.mpr (by linarith)
    omega
  · rw [if_neg hq]
    have h0 : q = 0 := le_antisymm h (not_lt.mp hq)
    rw [h0]
    simp

/-- C1: for every pattern group, the renderer computes the total frame
count of the group as the floor of ticksize times the group length,
where ticksize = sampleRate * 60 / (bpm * resolution) with the bpm of
that group, and the length is the longest pattern length of the group or
the default MAX_NOTES constant when the group is empty; an empty group
is rendered for exactly the frames of the default length, not
skipped. -/
theorem C1_group_frame_count (nSampleRate : ℕ) (nResolution : ℤ) (fBpm : ℚ)
    (g : PatternGroup) (hr : 0 < nSampleRate) (hres : 0 < nResolution)
    (hb : 0 < fBpm) :
    ((groupFrames nSampleRate nResolution fBpm g : ℤ) =
      ⌊(nSampleRate : ℚ) * 60 / (fBpm * (nResolution : ℚ)) * (nPatternSize g : ℚ)⌋) ∧
    nPatternSize g =
      (if g.patternLengths = [] then MAX_NOTES else longest_pattern_length g) ∧
    groupFrames nSampleRate nResolution fBpm ⟨[]⟩ =
      groupFrames nSampleRate nResolution fBpm ⟨[MAX_NOTES]⟩ := by
  have hts : 0 < computeTickSize nSampleRate fBpm nResolution := by
    rw [computeTickSize]
    apply div_pos
    · exact mul_pos (by exact_mod_cast hr) (by norm_num)
    · exact mul_pos hb (by exact_mod_cast hres)
  have hq : 0 ≤ computeTickSize nSampleRate fBpm nResolution * (nPatternSize g : ℚ) :=
    mul_nonneg hts.le (Nat.cast_nonneg _)
  refine ⟨?_, ?_, ?_⟩
  · rw [groupFrames, ratTrunc_eq_floor hq,
      Int.toNat_of_nonneg (Int.floor_nonneg.mpr hq), computeTickSize]
  · rw [nPatternSize]
    by_cases h : g.patternLengths = []
    · simp [h]
    · simp [h, List.length_eq_zero]
  · have hps : nPatternSize ⟨[]⟩ = nPatternSize ⟨[MAX_NOTES]⟩ := by decide
    rw [groupFrames, groupFrames, hps]

/-- Witness for C1 at the spec scenario A inputs: sample rate 48000,
resolution 48, bpm 120, one pattern of 96 ticks. -/
theorem C1_group_frame_count_witness :
    0 < (48000:ℕ) ∧ (0:ℤ) < 48 ∧ (0:ℚ) < 120 ∧
    (((groupFrames 48000 48 120 ⟨[96]⟩ : ℤ) =
      ⌊((48000:ℕ) : ℚ) * 60 / (120 * ((48:ℤ) : ℚ)) * (nPatternSize ⟨[96]⟩ : ℚ)⌋) ∧
    nPatternSize ⟨[96]⟩ =
      (if ([96] : List ℕ) = [] then MAX_NOTES else longest_pattern_length ⟨[96]⟩) ∧
    groupFrames 48000 48 120 ⟨[]⟩ = groupFrames 48000 48 120 ⟨[MAX_NOTES]⟩) :=
  ⟨by norm_num, by norm_num, by norm_num,
    C1_group_frame_count 48000 48 120 ⟨[96]⟩ (by norm_num) (by norm_num) (by norm_num)⟩

theorem clampSample_eq_max_min (x : ℚ) : clampSample x = max (-1) (min 1 x) := by
  rw [clampSample]
  split_ifs with h1 h2
  · rw [min_eq_left h1.le, max_eq_right (by norm_num : (-1:ℚ) ≤ 1)]
  · rw [min_eq_right (by linarith : x ≤ 1), max_eq_left h2.le]
  · rw [min_eq_right (not_lt.mp h1), max_eq_right (not_lt.mp h2)]

theorem clampSample_idem (x : ℚ) : clampSample (clampSample x) = clampSample x := by
  rw [clampSample_eq_max_min x, clampSample_eq_max_min,
    min_eq_right (max_le (by norm_num) (min_le_left 1 x)), ← max_assoc, max_self]

theorem conditionChunk_getElem :
    ∀ (L R : List ℚ), L.length = R.length → ∀ i : ℕ,
      (conditionChunk L R)[2 * i]? = (L[i]?).map clampSample ∧
      (conditionChunk L R)[2 * i + 1]? = (R[i]?).map clampSample := by
  intro L
  induction L with
  | nil =>
    intro R hlen i
    have hR : R = [] := List.length_eq_zero.mp hlen.symm
    subst hR
    simp [conditionChunk]
  | cons l ls ih =>
    intro R hlen i
    cases R with
    | nil => simp at hlen
    | cons r rs =>
      simp only [List.length_cons] at hlen
      have hlen' : ls.length = rs.length := by omega
      cases i with
      | zero => simp [conditionChunk]
      | succ j =>
        have h2 : 2 * (j + 1) = 2 * j + 1 + 1 := by ring
        have h3 : 2 * (j + 1) + 1 = 2 * j + 1 + 1 + 1 := by ring
        simp only [conditionChunk, h2, h3, List.getElem?_cons_succ]
        exact ⟨(ih rs hlen' j).1, (ih rs hlen' j).2⟩

/-- C4: the conditioned interleaved buffer holds the clamped left
channel at even positions and the clamped right channel at odd
positions; clamping maps values above one to one, values below minus one
to minus one, and passes the whole closed interval through unchanged
(including the endpoints), and is idempotent; the transform is a pure
function of the samples alone, independent of the sample depth. -/
theorem C4_sample_conditioner (L R : List ℚ) (i : ℕ) (hlen : L.length = R.length) :
    ((conditionChunk L R)[2 * i]? = (L[i]?).map clampSample ∧
     (conditionChunk L R)[2 * i + 1]? = (R[i]?).map clampSample) ∧
    (∀ x : ℚ, clampSample x = max (-1) (min 1 x)) ∧
    clampSample 1 = 1 ∧ clampSample (-1) = -1 ∧
    (∀ x : ℚ, clampSample (clampSample x) = clampSample x) :=
  ⟨conditionChunk_getElem L R hlen i, clampSample_eq_max_min,
    by norm_num [clampSample], by norm_num [clampSample], clampSample_idem⟩

/-- Witness for C4 on the chunk L = [2, 1/2], R = [-3, 1] at index 0. -/
theorem C4_sample_conditioner_witness :
    ([(2:ℚ), 1/2].length = [(-3:ℚ), 1].length) ∧
    (((conditionChunk [(2:ℚ), 1/2] [(-3:ℚ), 1])[2 * 0]? =
        (([(2:ℚ), 1/2])[0]?).map clampSample ∧
      (conditionChunk [(2:ℚ), 1/2] [(-3:ℚ), 1])[2 * 0 + 1]? =
        (([(-3:ℚ), 1])[0]?).map clampSample) ∧
    (∀ x : ℚ, clampSample x = max (-1) (min 1 x)) ∧
    clampSample 1 = 1 ∧ clampSample (-1) = -1 ∧
    (∀ x : ℚ, clampSample (clampSample x) = clampSample x)) :=
  ⟨rfl, C4_sample_conditioner [(2:ℚ), 1/2] [(-3:ℚ), 1] 0 rfl⟩

/-- C3 counterexample: at the lowercase extension .flac with requested
depth 8 the claim demands unsigned 8 bit PCM (the container is FLAC, not
AIFF), but the source leaves the default signed 16 bit PCM because its
depth 8 rule fires only for wav and aiff suffixes; the resulting format
words differ. -/
theorem C3_format_selector_counterexample :
    claimedFormatSelector ".flac".data 8 = (Container.flac, SampleEncoding.pcmU8) ∧
    encodePair (claimedFormatSelector ".flac".data 8) = 0x170005 ∧
    selectFormat ".flac".data 8 = 0x170002 ∧
    selectFormat ".flac".data 8 ≠ encodePair (claimedFormatSelector ".flac".data 8) :=
  ⟨by decide, by decide, by decide, by decide⟩

/-- C3 amended: the source maps every extension and depth to exactly the
container and encoding pair of amendedFormatSelector: container AIFF,
FLAC or OGG/Vorbis only for the exactly lowercase or exactly uppercase
spelling of the suffix (WAV otherwise, depth ignored for ogg), and for
depth 8 the encoding is unsigned 8 bit PCM only under a wav suffix and
signed 8 bit PCM only under an aiff suffix, every other extension
keeping the default signed 16 bit PCM; depths 16, 24 and 32 map to the
signed PCM encodings as claimed. -/
theorem C3_format_selector_amended (filename : List Char) (depth : ℤ) :
    selectFormat filename depth = encodePair (amendedFormatSelector filename depth) := by
  simp only [selectFormat, amendedFormatSelector, encodePair]
  cases hogg : qEndsWith filename ".ogg".data || qEndsWith filename ".OGG".data <;>
    cases haiff : qEndsWith filename ".aiff".data || qEndsWith filename ".AIFF".data <;>
      cases hflac : qEndsWith filename ".flac".data || qEndsWith filename ".FLAC".data <;>
        cases hwav : qEndsWith filename ".wav".data || qEndsWith filename ".WAV".data <;>
          simp [hogg, haiff, hflac, hwav, containerCode, encodingCode] <;>
            split_ifs <;> first | rfl | omega

theorem ratTrunc_nonneg {q : ℚ} (h : 0 ≤ q) : 0 ≤ ratTrunc q := by
  rw [ratTrunc_eq_floor h]
  exact Int.floor_nonneg.mpr h

theorem ratTrunc_mono {q r : ℚ} (h : q ≤ r) : ratTrunc q ≤ ratTrunc r := by
  rw [ratTrunc, ratTrunc]
  split_ifs with hq hr hr
  · have h1 := Int.floor_le_floor (neg_le_neg h)
    omega
  · have h1 : (0:ℤ) ≤ ⌊-q⌋ := Int.floor_nonneg.mpr (by linarith)
    have h2 : (0:ℤ) ≤ ⌊r⌋ := Int.floor_nonneg.mpr (not_lt.mp hr)
    omega
  · linarith
  · exact Int.floor_le_floor h

theorem progressValues_nil : progressValues [] = [] := rfl

theorem progressValues_cons (e : REvent) (t : List REvent) :
    progressValues (e :: t) =
      (match e with | REvent.progress p => [p] | _ => []) ++ progressValues t := by
  cases e <;> rfl

theorem progressValues_append (s t : List REvent) :
    progressValues (s ++ t) = progressValues s ++ progressValues t := by
  simp [progressValues, List.filterMap_append]

theorem progressValues_chunkWriteEvents (w : ℕ → ℕ → ℤ) :
    ∀ (sizes : List ℕ) (wc : ℕ), progressValues (chunkWriteEvents w wc sizes) = [] := by
  intro sizes
  induction sizes with
  | nil => intro wc; rfl
  | cons c rest ih =>
    intro wc
    by_cases h : w wc c = (c : ℤ) <;>
      simp [chunkWriteEvents, progressValues_cons, progressValues_append,
        progressValues_nil, h, ih]

theorem renderColumns_cons {drv : Driver} {song : Song} {w : ℕ → ℕ → ℤ}
    {nColumns pos wc : ℕ} {rest : List ℕ} {sizes : List ℕ} {evs : List REvent}
    (hsizes : chunks drv.m_nBufferSize (groupFrames drv.m_nSampleRate song.resolution
      (song.bpmAt pos) (song.patternGroups.getD pos ⟨[]⟩)) = some sizes)
    (hevs : renderColumns drv song w nColumns rest (wc + sizes.length) = some evs) :
    renderColumns drv song w nColumns (pos :: rest) wc =
      some (chunkWriteEvents w wc sizes ++
        [REvent.progress (ratTrunc (((pos : ℚ) + 1) / (nColumns : ℚ) * 100))] ++ evs) := by
  simp only [renderColumns, hsizes, hevs]

theorem renderColumns_run (drv : Driver) (song : Song) (w : ℕ → ℕ → ℤ)
    (nColumns : ℕ) (hB : 0 < drv.m_nBufferSize) :
    ∀ (poss : List ℕ) (wc : ℕ),
      ∃ evs, renderColumns drv song w nColumns poss wc = some evs ∧
        progressValues evs =
          poss.map (fun pos : ℕ => ratTrunc (((pos : ℚ) + 1) / (nColumns : ℚ) * 100)) := by
  intro poss
  induction poss with
  | nil => exact fun wc => ⟨[], rfl, rfl⟩
  | cons pos rest ih =>
    intro wc
    obtain ⟨evs, heq, hprog⟩ := ih (wc + (chunkListSpec drv.m_nBufferSize
      (groupFrames drv.m_nSampleRate song.resolution (song.bpmAt pos)
        (song.patternGroups.getD pos ⟨[]⟩))).length)
    refine ⟨_, renderColumns_cons (chunks_eq _ hB) heq, ?_⟩
    rw [progressValues_append, progressValues_append,
      progressValues_chunkWriteEvents, hprog, List.map_cons]
    simp [progressValues_cons, progressValues_nil]

theorem thread_run (drv : Driver) (song : Song) (fc : ℕ → Bool) (ok : Bool)
    (w : ℕ → ℕ → ℤ) (hB : 0 < drv.m_nBufferSize)
    (hfc : fc (selectFormat drv.m_sFilename drv.m_nSampleDepth) = true) :
    ∃ evs, diskWriterDriver_thread drv song fc ok w =
        some ([REvent.progress 0, REvent.play, REvent.openSink ok] ++ evs ++
          [REvent.closeSink]) ∧
      progressValues ([REvent.progress 0, REvent.play, REvent.openSink ok] ++ evs ++
          [REvent.closeSink]) = progressSpec song.patternGroups.length := by
  obtain ⟨evs, heq, hprog⟩ := renderColumns_run drv song w song.patternGroups.length hB
    (List.range song.patternGroups.length) 0
  refine ⟨evs, ?_, ?_⟩
  · simp [diskWriterDriver_thread, hfc, heq]
  · rw [progressSpec, progressValues_append, progressValues_append, hprog]
    simp [progressValues_cons, progressValues_nil]

theorem progressSpec_chain (N : ℕ) : List.Chain' (· ≤ ·) (progressSpec N) := by
  rw [progressSpec]
  cases N with
  | zero => simp
  | succ m =>
    have hden : (0:ℚ) < ((m+1 : ℕ) : ℚ) := by exact_mod_cast Nat.succ_pos m
    refine List.chain'_cons'.mpr ⟨?_, ?_⟩
    · intro y hy
      rw [List.head?_map, List.range_succ_eq_map] at hy
      simp only [List.head?_cons, Option.map_some] at hy
      have hy' : ratTrunc ((((0:ℕ) : ℚ) + 1) / ((m+1 : ℕ) : ℚ) * 100) = y :=
        Option.mem_some_iff.mp hy
      rw [← hy']
      exact ratTrunc_nonneg (by positivity)
    · rw [List.chain'_map]
      refine (List.chain'_range_succ _ m).mpr ?_
      intro i _
      apply ratTrunc_mono
      have hle : ((i:ℚ) + 1) / ((m+1 : ℕ) : ℚ) ≤ (((i+1 : ℕ):ℚ) + 1) / ((m+1 : ℕ) : ℚ) := by
        apply (div_le_div_iff_of_pos_right hden).mpr
        push_cast
        linarith
      exact mul_le_mul_of_nonneg_right hle (by norm_num)

theorem progressSpec_getLast (N : ℕ) :
    (progressSpec N).getLast? = some (if N = 0 then 0 else 100) := by
  rw [progressSpec]
  cases N with
  | zero => simp
  | succ m =>
    rw [if_neg (Nat.succ_ne_zero m), List.range_succ, List.map_append, List.map_cons,
      List.map_nil, ← List.cons_append, List.getLast?_concat]
    have harg : (((m:ℕ):ℚ) + 1) / ((m+1 : ℕ) : ℚ) * 100 = 100 := by
      push_cast
      rw [div_self (by positivity), one_mul]
    rw [harg, ratTrunc]
    norm_num

theorem progressSpec_dropLast_lt (N : ℕ) (hN : N ≠ 0) :
    ∀ p ∈ (progressSpec N).dropLast, p < 100 := by
  obtain ⟨m, rfl⟩ := Nat.exists_eq_succ_of_ne_zero hN
  intro p hp
  rw [progressSpec, List.range_succ, List.map_append, List.map_cons, List.map_nil,
    ← List.cons_append, List.dropLast_concat] at hp
  rcases List.mem_cons.mp hp with h | h
  · omega
  · obtain ⟨i, hi, rfl⟩ := List.mem_map.mp h
    rw [List.mem_range] at hi
    have hden : (0:ℚ) < ((m+1 : ℕ) : ℚ) := by exact_mod_cast Nat.succ_pos m
    have hc : (i:ℚ) + 1 ≤ (m:ℚ) := by exact_mod_cast Nat.succ_le_of_lt hi
    have harg : ((i:ℚ) + 1) / ((m+1 : ℕ) : ℚ) * 100 < 100 := by
      rw [div_mul_eq_mul_div, div_lt_iff₀ hden]
      push_cast
      linarith
    rw [ratTrunc_eq_floor (by positivity)]
    exact Int.floor_lt.mpr (by exact_mod_cast harg)

/-- C5 (amended): the render pushes an initial progress event of zero,
then after each completed group i of N one event whose percentage is
(i / N) * 100 truncated toward zero (the source casts the float to int;
the claim said rounded to nearest, refuted by the counterexample); the
sequence is non-decreasing and its final event is exactly 100 when at
least one group exists. -/
theorem C5_progress_sequence (drv : Driver) (song : Song) (fc : ℕ → Bool)
    (ok : Bool) (w : ℕ → ℕ → ℤ) (hB : 0 < drv.m_nBufferSize)
    (hfc : fc (selectFormat drv.m_sFilename drv.m_nSampleDepth) = true) :
    ∃ t, diskWriterDriver_thread drv song fc ok w = some t ∧
      progressValues t = 0 :: (List.range song.patternGroups.length).map
        (fun i : ℕ => ratTrunc (((i : ℚ) + 1) / ((song.patternGroups.length : ℚ)) * 100)) ∧
      List.Chain' (· ≤ ·) (progressValues t) ∧
      (progressValues t).getLast? =
        some (if song.patternGroups.length = 0 then 0 else 100) := by
  obtain ⟨evs, heq, hprog⟩ := thread_run drv song fc ok w hB hfc
  refine ⟨_, heq, ?_, ?_, ?_⟩
  · rw [hprog]; rfl
  · rw [hprog]; exact progressSpec_chain _
  · rw [hprog]; exact progressSpec_getLast _

/-- Witness for C5 on the concrete two-group song. -/
theorem C5_progress_sequence_witness :
    0 < drvA.m_nBufferSize ∧
    (fun _ : ℕ => true) (selectFormat drvA.m_sFilename drvA.m_nSampleDepth) = true ∧
    (∃ t, diskWriterDriver_thread drvA (songA 60 2) (fun _ => true) true
        (fun _ k => (k : ℤ)) = some t ∧
      progressValues t = 0 :: (List.range (songA 60 2).patternGroups.length).map
        (fun i : ℕ => ratTrunc (((i : ℚ) + 1) / (((songA 60 2).patternGroups.length : ℚ)) * 100)) ∧
      List.Chain' (· ≤ ·) (progressValues t) ∧
      (progressValues t).getLast? =
        some (if (songA 60 2).patternGroups.length = 0 then 0 else 100)) :=
  ⟨by decide, rfl, C5_progress_sequence drvA (songA 60 2) (fun _ => true) true
    (fun _ k => (k : ℤ)) (by decide) rfl⟩

/-- C5 counterexample: with three groups the source pushes [0, 33, 66,
100]; the claimed per-group formula round(100 * 2 / 3) = 67 disagrees
with the emitted 66 after the second group, so the percentage is
truncated toward zero, not rounded to nearest. -/
theorem C5_progress_round_counterexample :
    (∃ t, diskWriterDriver_thread drvA (songA 60 3) (fun _ => true) true
        (fun _ k => (k : ℤ)) = some t ∧ progressValues t = [0, 33, 66, 100]) ∧
    round ((100 : ℚ) * 2 / 3) = 67 ∧
    (66 : ℤ) ≠ round ((100 : ℚ) * 2 / 3) := by
  refine ⟨?_, by norm_num [round_eq], by norm_num [round_eq]⟩
  obtain ⟨evs, heq, hprog⟩ := thread_run drvA (songA 60 3) (fun _ => true) true
    (fun _ k => (k : ℤ)) (by decide) rfl
  refine ⟨_, heq, ?_⟩
  rw [hprog]
  have hlen : (songA 60 3).patternGroups.length = 3 := rfl
  rw [hlen, progressSpec]
  norm_num [List.range_succ, ratTrunc]

/-- C10: before the final group every pushed percentage is strictly
below 100, and exactly 100 appears only as the final event, because the
percentage (i / N) * 100 is truncated toward zero and reaches 100 only
at i = N. -/
theorem C10_hundred_only_last (drv : Driver) (song : Song) (fc : ℕ → Bool)
    (ok : Bool) (w : ℕ → ℕ → ℤ) (hB : 0 < drv.m_nBufferSize)
    (hfc : fc (selectFormat drv.m_sFilename drv.m_nSampleDepth) = true)
    (hN : song.patternGroups.length ≠ 0) :
    ∃ t, diskWriterDriver_thread drv song fc ok w = some t ∧
      (∀ p ∈ (progressValues t).dropLast, p < 100) ∧
      (progressValues t).getLast? = some 100 := by
  obtain ⟨evs, heq, hprog⟩ := thread_run drv song fc ok w hB hfc
  refine ⟨_, heq, ?_, ?_⟩
  · rw [hprog]; exact progressSpec_dropLast_lt _ hN
  · rw [hprog, progressSpec_getLast, if_neg hN]

/-- Witness for C10 on the concrete one-group song. -/
theorem C10_hundred_only_last_witness :
    0 < drvA.m_nBufferSize ∧
    (fun _ : ℕ => true) (selectFormat drvA.m_sFilename drvA.m_nSampleDepth) = true ∧
    (songA 60 1).patternGroups.length ≠ 0 ∧
    (∃ t, diskWriterDriver_thread drvA (songA 60 1) (fun _ => true) true
        (fun _ k => (k : ℤ)) = some t ∧
      (∀ p ∈ (progressValues t).dropLast, p < 100) ∧
      (progressValues t).getLast? = some 100) :=
  ⟨by decide, rfl, by decide, C10_hundred_only_last drvA (songA 60 1) (fun _ => true) true
    (fun _ k => (k : ℤ)) (by decide) rfl (by decide)⟩

/-- C6: when the capability check rejects the resolved format word, the
thread logs an error and returns before sf_open is ever reached: the
complete trace is the initial progress push, the transport start and the
error log, holding no sink opening, no chunk pull and no write. -/
theorem C6_format_rejected_aborts (drv : Driver) (song : Song) (fc : ℕ → Bool)
    (ok : Bool) (w : ℕ → ℕ → ℤ)
    (hfc : fc (selectFormat drv.m_sFilename drv.m_nSampleDepth) = false) :
    diskWriterDriver_thread drv song fc ok w =
      some [REvent.progress 0, REvent.play, REvent.formatErrorLog] := by
  simp [diskWriterDriver_thread, hfc]

/-- Witness for C6 with a capability check that rejects everything. -/
theorem C6_format_rejected_aborts_witness :
    (fun _ : ℕ => false) (selectFormat drvA.m_sFilename drvA.m_nSampleDepth) = false ∧
    diskWriterDriver_thread drvA (songA 60 1) (fun _ => false) true (fun _ k => (k : ℤ)) =
      some [REvent.progress 0, REvent.play, REvent.formatErrorLog] :=
  ⟨rfl, C6_format_rejected_aborts drvA (songA 60 1) (fun _ => false) true
    (fun _ k => (k : ℤ)) rfl⟩

theorem renderColumns_chunks_none {drv : Driver} {song : Song} {w : ℕ → ℕ → ℤ}
    {nColumns pos wc : ℕ} {rest : List ℕ}
    (hsizes : chunks drv.m_nBufferSize (groupFrames drv.m_nSampleRate song.resolution
      (song.bpmAt pos) (song.patternGroups.getD pos ⟨[]⟩)) = none) :
    renderColumns drv song w nColumns (pos :: rest) wc = none := by
  simp only [renderColumns, hsizes]

theorem renderColumns_rest_none {drv : Driver} {song : Song} {w : ℕ → ℕ → ℤ}
    {nColumns pos wc : ℕ} {rest : List ℕ} {sizes : List ℕ}
    (hsizes : chunks drv.m_nBufferSize (groupFrames drv.m_nSampleRate song.resolution
      (song.bpmAt pos) (song.patternGroups.getD pos ⟨[]⟩)) = some sizes)
    (hrest : renderColumns drv song w nColumns rest (wc + sizes.length) = none) :
    renderColumns drv song w nColumns (pos :: rest) wc = none := by
  simp only [renderColumns, hsizes, hrest]

theorem stateEvents_nil : stateEvents [] = [] := rfl

theorem stateEvents_cons (e : REvent) (t : List REvent) :
    stateEvents (e :: t) =
      (match e with | REvent.shortWriteLog => ([] : List REvent) | _ => [e]) ++
        stateEvents t := by
  cases e <;> rfl

theorem stateEvents_append (s t : List REvent) :
    stateEvents (s ++ t) = stateEvents s ++ stateEvents t := by
  simp [stateEvents, List.filter_append]

theorem stateEvents_chunkWriteEvents (w : ℕ → ℕ → ℤ) :
    ∀ (sizes : List ℕ) (wc : ℕ),
      stateEvents (chunkWriteEvents w wc sizes) =
        chunkWriteEvents (fun _ k => (k : ℤ)) wc sizes := by
  intro sizes
  induction sizes with
  | nil => intro wc; rfl
  | cons c rest ih =>
    intro wc
    have hperf : ((c : ℤ)) = (c : ℤ) := rfl
    by_cases h : w wc c = (c : ℤ)
    · simp only [chunkWriteEvents, stateEvents_cons, stateEvents_append, stateEvents_nil,
        if_pos h, if_pos hperf, ih]
      rfl
    · simp only [chunkWriteEvents, stateEvents_cons, stateEvents_append, stateEvents_nil,
        if_neg h, if_pos hperf, ih]
      rfl

theorem stateEvents_renderColumns (drv : Driver) (song : Song) (w : ℕ → ℕ → ℤ)
    (nColumns : ℕ) :
    ∀ (poss : List ℕ) (wc : ℕ),
      (renderColumns drv song w nColumns poss wc).map stateEvents =
        (renderColumns drv song (fun _ k => (k : ℤ)) nColumns poss wc).map stateEvents := by
  intro poss
  induction poss with
  | nil => intro wc; rfl
  | cons pos rest ih =>
    intro wc
    cases hch : chunks drv.m_nBufferSize (groupFrames drv.m_nSampleRate song.resolution
        (song.bpmAt pos) (song.patternGroups.getD pos ⟨[]⟩)) with
    | none => rw [renderColumns_chunks_none hch, renderColumns_chunks_none hch]
    | some sizes =>
      have hih := ih (wc + sizes.length)
      cases hw : renderColumns drv song w nColumns rest (wc + sizes.length) with
      | none =>
        rw [hw] at hih
        cases hp : renderColumns drv song (fun _ k => (k : ℤ)) nColumns rest
            (wc + sizes.length) with
        | none => rw [renderColumns_rest_none hch hw, renderColumns_rest_none hch hp]
        | some evs2 =>
          rw [hp] at hih
          exact absurd hih.symm (by simp)
      | some evs =>
        rw [hw] at hih
        cases hp : renderColumns drv song (fun _ k => (k : ℤ)) nColumns rest
            (wc + sizes.length) with
        | none =>
          rw [hp] at hih
          exact absurd hih (by simp)
        | some evs2 =>
          rw [hp] at hih
          simp only [Option.map_some', Option.some.injEq] at hih
          rw [renderColumns_cons hch hw, renderColumns_cons hch hp]
          simp only [Option.map_some', Option.some.injEq, stateEvents_append,
            stateEvents_chunkWriteEvents, hih, stateEvents_cons, stateEvents_nil]

theorem shortWriteLog_notMem_chunkWriteEvents :
    ∀ (sizes : List ℕ) (wc : ℕ),
      REvent.shortWriteLog ∉ chunkWriteEvents (fun _ k => (k : ℤ)) wc sizes := by
  intro sizes
  induction sizes with
  | nil => intro wc; simp [chunkWriteEvents]
  | cons c rest ih =>
    intro wc
    simp [chunkWriteEvents, ih]

theorem shortWriteLog_notMem_renderColumns (drv : Driver) (song : Song) (nColumns : ℕ) :
    ∀ (poss : List ℕ) (wc : ℕ) (evs : List REvent),
      renderColumns drv song (fun _ k => (k : ℤ)) nColumns poss wc = some evs →
        REvent.shortWriteLog ∉ evs := by
  intro poss
  induction poss with
  | nil =>
    intro wc evs h
    have hevs : evs = [] := by
      simp only [renderColumns, Option.some.injEq] at h
      exact h.symm
    simp [hevs]
  | cons pos rest ih =>
    intro wc evs h
    cases hch : chunks drv.m_nBufferSize (groupFrames drv.m_nSampleRate song.resolution
        (song.bpmAt pos) (song.patternGroups.getD pos ⟨[]⟩)) with
    | none => rw [renderColumns_chunks_none hch] at h; exact absurd h (by simp)
    | some sizes =>
      cases hp : renderColumns drv song (fun _ k => (k : ℤ)) nColumns rest
          (wc + sizes.length) with
      | none => rw [renderColumns_rest_none hch hp] at h; exact absurd h (by simp)
      | some evs2 =>
        rw [renderColumns_cons hch hp] at h
        simp only [Option.some.injEq] at h
        rw [← h]
        intro hmem
        rcases List.mem_append.mp hmem with h1 | h1
        · rcases List.mem_append.mp h1 with h2 | h2
          · exact shortWriteLog_notMem_chunkWriteEvents sizes wc h2
          · simp at h2
        · exact ih (wc + sizes.length) evs2 hp h1

theorem thread_cols_none {drv : Driver} {song : Song} {fc : ℕ → Bool} {ok : Bool}
    {w : ℕ → ℕ → ℤ}
    (hfc : ¬ (fc (selectFormat drv.m_sFilename drv.m_nSampleDepth) = false))
    (hcols : renderColumns drv song w song.patternGroups.length
      (List.range song.patternGroups.length) 0 = none) :
    diskWriterDriver_thread drv song fc ok w = none := by
  simp only [diskWriterDriver_thread, if_neg hfc, hcols]

theorem thread_cols_some {drv : Driver} {song : Song} {fc : ℕ → Bool} {ok : Bool}
    {w : ℕ → ℕ → ℤ} {evs : List REvent}
    (hfc : ¬ (fc (selectFormat drv.m_sFilename drv.m_nSampleDepth) = false))
    (hcols : renderColumns drv song w song.patternGroups.length
      (List.range song.patternGroups.length) 0 = some evs) :
    diskWriterDriver_thread drv song fc ok w =
      some ([REvent.progress 0, REvent.play, REvent.openSink ok] ++ evs ++
        [REvent.closeSink]) := by
  simp only [diskWriterDriver_thread, if_neg hfc, hcols]
  simp

/-- C8: a short write only produces an error log and changes nothing
else: erasing the short-write logs, the whole trace under arbitrary
external write results equals the trace under fully successful writes
(same pulls, same write calls, same progress events, in the same order),
a render with fully successful writes logs nothing, and per chunk the
loop emits the pull, the write call, and the error log exactly when the
returned count differs from the requested one, then continues with the
next chunk. -/
theorem C8_short_write_logged_and_ignored (drv : Driver) (song : Song)
    (fc : ℕ → Bool) (ok : Bool) (w : ℕ → ℕ → ℤ) :
    (diskWriterDriver_thread drv song fc ok w).map stateEvents =
      (diskWriterDriver_thread drv song fc ok (fun _ k => (k : ℤ))).map stateEvents ∧
    REvent.shortWriteLog ∉
      ((diskWriterDriver_thread drv song fc ok (fun _ k => (k : ℤ))).getD []) ∧
    (∀ (wc c : ℕ) (rest : List ℕ), chunkWriteEvents w wc (c :: rest) =
      REvent.pull c :: REvent.writeCall c ::
        ((if w wc c = (c : ℤ) then [] else [REvent.shortWriteLog]) ++
          chunkWriteEvents w (wc + 1) rest)) := by
  refine ⟨?_, ?_, fun wc c rest => rfl⟩
  · by_cases hfc : fc (selectFormat drv.m_sFilename drv.m_nSampleDepth) = false
    · simp [diskWriterDriver_thread, hfc]
    · have hsr := stateEvents_renderColumns drv song w song.patternGroups.length
        (List.range song.patternGroups.length) 0
      cases hw : renderColumns drv song w song.patternGroups.length
          (List.range song.patternGroups.length) 0 with
      | none =>
        rw [hw] at hsr
        cases hp : renderColumns drv song (fun _ k => (k : ℤ)) song.patternGroups.length
            (List.range song.patternGroups.length) 0 with
        | none => rw [thread_cols_none hfc hw, thread_cols_none hfc hp]
        | some evs2 =>
          rw [hp] at hsr
          exact absurd hsr.symm (by simp)
      | some evs =>
        rw [hw] at hsr
        cases hp : renderColumns drv song (fun _ k => (k : ℤ)) song.patternGroups.length
            (List.range song.patternGroups.length) 0 with
        | none =>
          rw [hp] at hsr
          exact absurd hsr (by simp)
        | some evs2 =>
          rw [hp] at hsr
          simp only [Option.map_some', Option.some.injEq] at hsr
          rw [thread_cols_some hfc hw, thread_cols_some hfc hp]
          simp only [Option.map_some', Option.some.injEq, stateEvents_append, hsr,
            stateEvents_cons, stateEvents_nil]
  · by_cases hfc : fc (selectFormat drv.m_sFilename drv.m_nSampleDepth) = false
    · simp [diskWriterDriver_thread, hfc]
    · cases hp : renderColumns drv song (fun _ k => (k : ℤ)) song.patternGroups.length
          (List.range song.patternGroups.length) 0 with
      | none => simp [thread_cols_none hfc hp]
      | some evs2 =>
        have hnm := shortWriteLog_notMem_renderColumns drv song song.patternGroups.length
          (List.range song.patternGroups.length) 0 evs2 hp
        simp [thread_cols_some hfc hp, hnm]

theorem renderColumns_zero_frames (drv : Driver) (song : Song) (w : ℕ → ℕ → ℤ)
    (nColumns : ℕ) :
    ∀ (poss : List ℕ) (wc : ℕ),
      (∀ pos ∈ poss, groupFrames drv.m_nSampleRate song.resolution (song.bpmAt pos)
        (song.patternGroups.getD pos ⟨[]⟩) = 0) →
      renderColumns drv song w nColumns poss wc =
        some (poss.map fun pos : ℕ =>
          REvent.progress (ratTrunc (((pos : ℚ) + 1) / (nColumns : ℚ) * 100))) := by
  intro poss
  induction poss with
  | nil => intro wc _; rfl
  | cons pos rest ih =>
    intro wc h
    have h0 := h pos (List.mem_cons_self _ _)
    have hsizes : chunks drv.m_nBufferSize (groupFrames drv.m_nSampleRate song.resolution
        (song.bpmAt pos) (song.patternGroups.getD pos ⟨[]⟩)) = some [] := by
      rw [h0]
      exact chunks_total_zero _
    have hrest := ih (wc + ([] : List ℕ).length)
      (fun p hp => h p (List.mem_cons_of_mem _ hp))
    rw [renderColumns_cons hsizes hrest, List.map_cons]
    rfl

theorem thread_run_zero_frames (drv : Driver) (song : Song) (fc : ℕ → Bool)
    (ok : Bool) (w : ℕ → ℕ → ℤ)
    (hfc : fc (selectFormat drv.m_sFilename drv.m_nSampleDepth) = true)
    (hframes : ∀ pos, groupFrames drv.m_nSampleRate song.resolution (song.bpmAt pos)
      (song.patternGroups.getD pos ⟨[]⟩) = 0) :
    diskWriterDriver_thread drv song fc ok w =
      some ([REvent.progress 0, REvent.play, REvent.openSink ok] ++
        (List.range song.patternGroups.length).map
          (fun pos : ℕ => REvent.progress
            (ratTrunc (((pos : ℚ) + 1) / ((song.patternGroups.length : ℚ)) * 100))) ++
        [REvent.closeSink]) := by
  have hcols := renderColumns_zero_frames drv song w song.patternGroups.length
    (List.range song.patternGroups.length) 0 (fun pos _ => hframes pos)
  exact thread_cols_some (by simp [hfc]) hcols

/-- C9 counterexample: with sample rate zero, a non-positive value of
the configuration, the source does not fail before work starts and has
no InvalidConfiguration error: it still pushes the initial progress
event, starts the transport and opens the sink; the tick size is then
exactly zero, so the single group is zero frames and the run completes
normally, emitting the final progress and closing the sink.  Every cast
on this input is well defined (the product at line 177 is exactly
zero). -/
theorem C9_no_invalid_configuration_counterexample :
    drvA0.m_nSampleRate = 0 ∧
    diskWriterDriver_thread drvA0 (songA 60 1) (fun _ => true) true
        (fun _ k => (k : ℤ)) =
      some [REvent.progress 0, REvent.play, REvent.openSink true,
        REvent.progress 100, REvent.closeSink] := by
  refine ⟨rfl, ?_⟩
  have h := thread_run_zero_frames drvA0 (songA 60 1) (fun _ => true) true
    (fun _ k => (k : ℤ)) rfl ?_
  · rw [h]
    have hlen : (songA 60 1).patternGroups.length = 1 := rfl
    rw [hlen]
    simp [List.range_succ]
    norm_num [ratTrunc]
  · intro pos
    rw [groupFrames, computeTickSize]
    norm_num [drvA0, ratTrunc]

/-- C9 (amended): the source performs no validation of bpm, resolution,
sample rate or buffer size and knows no InvalidConfiguration error: the
initial progress push, the transport start, the format check and the
sink open all happen before any of those values is consulted; in
particular with sample rate zero (the one non-positive value of its
unsigned type) and positive bpm and resolution everywhere, the tick size
is exactly zero, every group renders zero frames and no chunks, and the
run completes normally with its per-group progress events and the sink
closed, instead of failing before work starts. -/
theorem C9_no_validation (drv : Driver) (song : Song) (fc : ℕ → Bool)
    (ok : Bool) (w : ℕ → ℕ → ℤ)
    (hfc : fc (selectFormat drv.m_sFilename drv.m_nSampleDepth) = true)
    (hrate : drv.m_nSampleRate = 0)
    (hbpm : ∀ pos, 0 < song.bpmAt pos) (hres : 0 < song.resolution) :
    diskWriterDriver_thread drv song fc ok w =
      some ([REvent.progress 0, REvent.play, REvent.openSink ok] ++
        (List.range song.patternGroups.length).map
          (fun pos : ℕ => REvent.progress
            (ratTrunc (((pos : ℚ) + 1) / ((song.patternGroups.length : ℚ)) * 100))) ++
        [REvent.closeSink]) := by
  apply thread_run_zero_frames drv song fc ok w hfc
  intro pos
  rw [groupFrames, computeTickSize, hrate]
  norm_num [ratTrunc]

/-- Witness for C9 on the concrete one-group song at sample rate 0. -/
theorem C9_no_validation_witness :
    (fun _ : ℕ => true) (selectFormat drvA0.m_sFilename drvA0.m_nSampleDepth) = true ∧
    drvA0.m_nSampleRate = 0 ∧
    (∀ pos, 0 < (songA 60 1).bpmAt pos) ∧
    0 < (songA 60 1).resolution ∧
    diskWriterDriver_thread drvA0 (songA 60 1) (fun _ => true) true
        (fun _ k => (k : ℤ)) =
      some ([REvent.progress 0, REvent.play, REvent.openSink true] ++
        (List.range (songA 60 1).patternGroups.length).map
          (fun pos : ℕ => REvent.progress
            (ratTrunc (((pos : ℚ) + 1) / (((songA 60 1).patternGroups.length : ℚ)) * 100))) ++
        [REvent.closeSink]) :=
  ⟨rfl, rfl, fun pos => by norm_num [songA], by norm_num [songA],
    C9_no_validation drvA0 (songA 60 1) (fun _ => true) true (fun _ k => (k : ℤ))
      rfl rfl (fun pos => by norm_num [songA]) (by norm_num [songA])⟩

/-- C7 (exhibit of the code bug): the source never examines the result
of sf_open; with a failed open the render does not abort and produces
work anyway: on a one-group song of 6 frames with buffer size 4 it still
pulls both chunks and calls sf_writef_float for each (every write
failing as a short write that is merely logged, sf_writef_float on a
null handle returning 0), then pushes the final progress and closes,
contradicting the claim that no chunk is pulled or written after a
failed open. -/
theorem C7_failed_open_still_writes :
    diskWriterDriver_thread drvA (songA 60 1) (fun _ => true) false
        (fun _ _ => (0 : ℤ)) =
      some [REvent.progress 0, REvent.play, REvent.openSink false,
        REvent.pull 4, REvent.writeCall 4, REvent.shortWriteLog,
        REvent.pull 2, REvent.writeCall 2, REvent.shortWriteLog,
        REvent.progress 100, REvent.closeSink] := by
  have hframes : groupFrames drvA.m_nSampleRate (songA 60 1).resolution
      ((songA 60 1).bpmAt 0) ((songA 60 1).patternGroups.getD 0 ⟨[]⟩) = 6 := by
    norm_num [songA, drvA, groupFrames, computeTickSize, nPatternSize,
      longest_pattern_length, ratTrunc, List.getD, List.replicate]
    decide
  have hsizes : chunks drvA.m_nBufferSize (groupFrames drvA.m_nSampleRate
      (songA 60 1).resolution ((songA 60 1).bpmAt 0)
      ((songA 60 1).patternGroups.getD 0 ⟨[]⟩)) = some [4, 2] := by
    rw [hframes]
    decide
  have hrest : renderColumns drvA (songA 60 1) (fun _ _ => (0 : ℤ)) 1 []
      (0 + ([4, 2] : List ℕ).length) = some [] := rfl
  have hcol := renderColumns_cons hsizes hrest
  have hlen : (songA 60 1).patternGroups.length = 1 := rfl
  have hrange : List.range (songA 60 1).patternGroups.length = [0] := by
    rw [hlen]
    decide
  have hcols : renderColumns drvA (songA 60 1) (fun _ _ => (0 : ℤ))
      (songA 60 1).patternGroups.length
      (List.range (songA 60 1).patternGroups.length) 0 =
      some (chunkWriteEvents (fun _ _ => (0 : ℤ)) 0 [4, 2] ++
        [REvent.progress (ratTrunc ((((0:ℕ) : ℚ) + 1) / ((1 : ℕ) : ℚ) * 100))] ++ []) := by
    rw [hrange, hlen]
    exact hcol
  have hthread := @thread_cols_some drvA (songA 60 1) (fun _ => true) false
    (fun _ _ => (0 : ℤ)) _ (by simp) hcols
  rw [hthread]
  norm_num [chunkWriteEvents, ratTrunc]

end DiskWriter
